import Mathlib

/-!
Verification of the mainz-events scraper (`internal/scraper/scraper.go`).

Modelling conventions:
* A Go `string` is a byte slice; we model it as `Str := List Nat`, each
  element a UTF-8 byte value (< 256).  `strBytes` encodes a Lean string
  literal into that representation.  Byte-level modelling matters because
  Go's `len` and slicing (`description[:100]`) operate on bytes, not
  characters.
* Network and HTML parsing are external effects.  A page fetch is modelled
  as a function `fetch : Nat → Option _` from the page index to the
  combined result of `http.Get`, the status check, and
  `goquery.NewDocumentFromReader` plus the fixed selector extraction:
  `none` stands for any transport / non-200-status / parse failure, and
  `some xs` for a successfully fetched page whose selectors matched the
  list `xs` (possibly empty).  Both the sequential and the parallel
  collector run the identical request/extraction code on the same URL
  scheme (`baseURL?sp-page=<n>`), so they are modelled with the same
  `fetch` function.
* The parallel collectors receive results in goroutine completion order.
  That order is modelled by a schedule `sched : Nat → List Nat` giving, for
  the round starting at page `p`, the order in which the `batchSize` page
  offsets complete; theorems assume `(sched p).Perm (List.range batchSize)`.
* Go's unbounded `for` loops are modelled with explicit fuel; `none` means
  the fuel was exhausted before the loop finished.
-/

namespace MainzEvents

/-- A Go string: a list of UTF-8 byte values. -/
abbrev Str := List Nat

/-- UTF-8 encoding of a single character, as byte values. -/
def encodeChar (c : Char) : List Nat :=
  let n := c.toNat
  if n < 0x80 then [n]
  else if n < 0x800 then [0xC0 + n / 0x40, 0x80 + n % 0x40]
  else if n < 0x10000 then
    [0xE0 + n / 0x1000, 0x80 + (n / 0x40) % 0x40, 0x80 + n % 0x40]
  else
    [0xF0 + n / 0x40000, 0x80 + (n / 0x1000) % 0x40,
     0x80 + (n / 0x40) % 0x40, 0x80 + n % 0x40]

/-- UTF-8 encoding of a Lean string into the Go byte-string model. -/
def strBytes (s : String) : Str := s.toList.flatMap encodeChar

/-- Number of UTF-8 characters of a byte string: bytes that are not
continuation bytes (`0x80 ≤ b < 0xC0`) each start one character. -/
def utf8CharCount (s : Str) : Nat :=
  (s.filter (fun b => !(0x80 ≤ b && b < 0xC0))).length

/-- ASCII whitespace, the common case of Go's `unicode.IsSpace` (the model
restricts `strings.TrimSpace` to ASCII whitespace bytes). -/
def isSpaceByte (b : Nat) : Bool :=
  b = 32 || b = 9 || b = 10 || b = 11 || b = 12 || b = 13

/-- Model of Go `strings.TrimSpace`. -/
def trimSpace (s : Str) : Str :=
  ((s.dropWhile isSpaceByte).reverse.dropWhile isSpaceByte).reverse

/-- Model of Go `time.Time` restricted to the fields the scraper's two
layouts can produce.  The zero value is Go's zero time
(January 1, year 1, 00:00:00, offset 0). -/
structure GoTime where
  year : Nat
  month : Nat
  day : Nat
  hour : Nat
  minute : Nat
  second : Nat
  offsetMinutes : Int
deriving DecidableEq, Repr

/-- Go's zero `time.Time`. -/
def GoTime.zero : GoTime := ⟨1, 1, 1, 0, 0, 0, 0⟩

/-- ASCII digit test on a byte value. -/
def isDigitByte (b : Nat) : Bool := 48 ≤ b && b ≤ 57

/-- Numeric value of an ASCII digit byte. -/
def digitVal (b : Nat) : Nat := b - 48

/-- Gregorian leap-year test (as in Go's `time` package). -/
def isLeapYear (y : Nat) : Bool :=
  (y % 4 = 0 && y % 100 ≠ 0) || y % 400 = 0

/-- Days in a month, as validated by Go's `time.Parse`. -/
def daysInMonth (y m : Nat) : Nat :=
  if m = 2 then (if isLeapYear y then 29 else 28)
  else if m = 4 || m = 6 || m = 9 || m = 11 then 30
  else 31

/-- Model of Go `time.Parse("2006-01-02", s)`: exactly ten bytes
`YYYY-MM-DD`, all digit positions digits, month and day in range.  On
success the time of day is midnight and the offset is zero. -/
def parseYYYYMMDD (s : Str) : Option GoTime :=
  match s with
  | [y1, y2, y3, y4, h1, m1, m2, h2, d1, d2] =>
    if isDigitByte y1 && isDigitByte y2 && isDigitByte y3 && isDigitByte y4 &&
       h1 = 45 && isDigitByte m1 && isDigitByte m2 &&
       h2 = 45 && isDigitByte d1 && isDigitByte d2 then
      let y := digitVal y1 * 1000 + digitVal y2 * 100 + digitVal y3 * 10 + digitVal y4
      let m := digitVal m1 * 10 + digitVal m2
      let d := digitVal d1 * 10 + digitVal d2
      if 1 ≤ m && m ≤ 12 && 1 ≤ d && d ≤ daysInMonth y m then
        some ⟨y, m, d, 0, 0, 0, 0⟩
      else none
    else none
  | _ => none

/-- Model of Go `time.Parse("2006-01-02T15:04:05-0700", s)`: exactly
24 bytes, fixed separators, digits in the numeric positions, fields in
range, numeric UTC offset with sign `+` or `-`. -/
def parseISO8601 (s : Str) : Option GoTime :=
  match s with
  | [y1, y2, y3, y4, sep1, m1, m2, sep2, d1, d2, t,
     h1, h2, c1, n1, n2, c2, s1, s2, sg, o1, o2, o3, o4] =>
    if isDigitByte y1 && isDigitByte y2 && isDigitByte y3 && isDigitByte y4 &&
       sep1 = 45 && isDigitByte m1 && isDigitByte m2 &&
       sep2 = 45 && isDigitByte d1 && isDigitByte d2 &&
       t = 84 && isDigitByte h1 && isDigitByte h2 &&
       c1 = 58 && isDigitByte n1 && isDigitByte n2 &&
       c2 = 58 && isDigitByte s1 && isDigitByte s2 &&
       (sg = 43 || sg = 45) &&
       isDigitByte o1 && isDigitByte o2 && isDigitByte o3 && isDigitByte o4 then
      let y := digitVal y1 * 1000 + digitVal y2 * 100 + digitVal y3 * 10 + digitVal y4
      let mo := digitVal m1 * 10 + digitVal m2
      let d := digitVal d1 * 10 + digitVal d2
      let h := digitVal h1 * 10 + digitVal h2
      let mi := digitVal n1 * 10 + digitVal n2
      let se := digitVal s1 * 10 + digitVal s2
      let off : Int := (digitVal o1 * 10 + digitVal o2) * 60 + (digitVal o3 * 10 + digitVal o4)
      if 1 ≤ mo && mo ≤ 12 && 1 ≤ d && d ≤ daysInMonth y mo &&
         h ≤ 23 && mi ≤ 59 && se ≤ 59 then
        some ⟨y, mo, d, h, mi, se, if sg = 45 then -off else off⟩
      else none
    else none
  | _ => none

/-! ## Sequential link iterator (`EventLinkIterator`, scraper.go lines 20-147) -/

/-- State of `EventLinkIterator` (scraper.go lines 21-25). -/
structure EventLinkIterator where
  currentPage : Nat
  links : List Str
  hasMore : Bool
deriving DecidableEq, Repr

/-- `NewEventLinkIterator` (scraper.go lines 45-51). -/
def NewEventLinkIterator : EventLinkIterator :=
  { currentPage := 1, links := [], hasMore := true }

/-- `EventLinkIterator.fetchNextPage` (scraper.go lines 82-131).  `fetch`
abstracts the HTTP GET + status check + document parse + anchor-selector
extraction for one page index: `none` is any transport/status/parse error,
`some links` the extracted link list. -/
def EventLinkIterator.fetchNextPage (fetch : Nat → Option (List Str))
    (e : EventLinkIterator) : EventLinkIterator :=
  match fetch e.currentPage with
  | none => { e with hasMore := false }
  | some links =>
    if links.length = 0 then { e with hasMore := false }
    else { e with links := links, currentPage := e.currentPage + 1 }

/-- `EventLinkIterator.Next` (scraper.go lines 54-79).  Returns the link
(`some l` for `(l, true)`, `none` for `("", false)`) and the new state. -/
def EventLinkIterator.Next (fetch : Nat → Option (List Str))
    (e : EventLinkIterator) : Option Str × EventLinkIterator :=
  match e.links with
  | l :: rest => (some l, { e with links := rest })
  | [] =>
    if e.hasMore = false then (none, e)
    else
      let e' := e.fetchNextPage fetch
      match e'.links with
      | l :: rest => (some l, { e' with links := rest })
      | [] => (none, e')

/-- The collection loop of `GetAllEventLinks` (scraper.go lines 138-144),
with fuel. -/
def collectLinksLoop (fetch : Nat → Option (List Str)) :
    Nat → EventLinkIterator → List Str → Option (List Str)
  | 0, _, _ => none
  | fuel + 1, e, acc =>
    match EventLinkIterator.Next fetch e with
    | (some l, e') => collectLinksLoop fetch fuel e' (acc ++ [l])
    | (none, _) => some acc

/-- `GetAllEventLinks` (scraper.go lines 134-147). -/
def GetAllEventLinks (fetch : Nat → Option (List Str)) (fuel : Nat) :
    Option (List Str) :=
  collectLinksLoop fetch fuel NewEventLinkIterator []

/-! ## Parallel link collector (`GetAllEventLinksParallel`, scraper.go lines 150-231) -/

/-- `batchSize := 10` (scraper.go line 154). -/
def batchSize : Nat := 10

/-- Whether the page-fetch task for page `p` sends on the channel
(scraper.go lines 163-205): it does exactly when the fetch succeeded and
extracted at least one link (`len(pageLinks) > 0`); transport errors,
non-200 statuses and parse errors return early without sending. -/
def pageYields (fetch : Nat → Option (List Str)) (p : Nat) : Bool :=
  match fetch p with
  | some (_ :: _) => true
  | _ => false

/-- The sequence of link lists received on `linksChan` during one round
starting at page `p`, in goroutine completion order `ord` (a permutation of
`List.range batchSize`).  A task sends only when its fetch succeeded with a
non-empty link list (scraper.go lines 202-204). -/
def parallelRoundContrib (fetch : Nat → Option (List Str)) (p : Nat)
    (ord : List Nat) : List (List Str) :=
  ord.filterMap (fun i =>
    match fetch (p + i) with
    | none => none
    | some pageLinks => if pageLinks.length > 0 then some pageLinks else none)

/-- The mutable state of the `GetAllEventLinksParallel` loop
(scraper.go lines 151-153). -/
structure ParState where
  allLinks : List Str
  currentPage : Nat
  hasMore : Bool
deriving DecidableEq, Repr

/-- One round of the parallel loop body (scraper.go lines 156-228): collect
the channel's contributions, advance the cursor by `batchSize`
unconditionally, and clear `hasMore` when fewer than `batchSize` pages
contributed. -/
def parallelRound (fetch : Nat → Option (List Str)) (ord : List Nat)
    (s : ParState) : ParState :=
  let contrib := parallelRoundContrib fetch s.currentPage ord
  { allLinks := s.allLinks ++ contrib.flatten
    currentPage := s.currentPage + batchSize
    hasMore := if contrib.length < batchSize then false else s.hasMore }

/-- The `for hasMore` loop of `GetAllEventLinksParallel`, with fuel.
`sched p` is the completion order of the round starting at page `p`. -/
def parallelLoop (fetch : Nat → Option (List Str)) (sched : Nat → List Nat) :
    Nat → ParState → Option (List Str)
  | 0, s => if s.hasMore then none else some s.allLinks
  | fuel + 1, s =>
    if s.hasMore then
      parallelLoop fetch sched fuel (parallelRound fetch (sched s.currentPage) s)
    else some s.allLinks

/-- `GetAllEventLinksParallel` (scraper.go lines 150-231). -/
def GetAllEventLinksParallel (fetch : Nat → Option (List Str))
    (sched : Nat → List Nat) (fuel : Nat) : Option (List Str) :=
  parallelLoop fetch sched fuel { allLinks := [], currentPage := 1, hasMore := true }

/-! ## Event previews (scraper.go lines 27-42, 233-481) -/

/-- `EventPreview` (scraper.go lines 28-35). -/
structure EventPreview where
  Link : Str
  Title : Str
  Organizer : Str
  Location : Str
  StartTime : GoTime
  EndTime : GoTime
deriving DecidableEq, Repr

/-- The aspects of one `li.SPmod-events-teaser` node that the preview
extraction reads (scraper.go lines 300-338): the `href` of the
`a[itemprop=url]` child when present, the texts of the name headline and
the location block, and the `content` attributes of the start/end date
`meta` elements when present. -/
structure TeaserNode where
  urlHref : Option Str
  nameText : Str
  locationText : Str
  startDateAttr : Option Str
  endDateAttr : Option Str
deriving DecidableEq, Repr

/-- Per-node preview extraction of `EventPreviewIterator.fetchNextPage`
(scraper.go lines 300-338). -/
def extractPreview (n : TeaserNode) : EventPreview :=
  let link : Str :=
    match n.urlHref with
    | some href =>
      if (strBytes "http").isPrefixOf href then href
      else strBytes "https://www.mainz.de" ++ href
    | none => []
  let locationText := trimSpace n.locationText
  let startTime : GoTime :=
    match n.startDateAttr with
    | some a => match parseISO8601 a with
      | some t => t
      | none => GoTime.zero
    | none => GoTime.zero
  let endTime : GoTime :=
    match n.endDateAttr with
    | some a => match parseISO8601 a with
      | some t => t
      | none => GoTime.zero
    | none => GoTime.zero
  { Link := link
    Title := trimSpace n.nameText
    Organizer := locationText
    Location := locationText
    StartTime := startTime
    EndTime := endTime }

/-- State of `EventPreviewIterator` (scraper.go lines 38-42). -/
structure EventPreviewIterator where
  currentPage : Nat
  previews : List EventPreview
  hasMore : Bool
deriving DecidableEq, Repr

/-- `NewEventPreviewIterator` (scraper.go lines 234-240). -/
def NewEventPreviewIterator : EventPreviewIterator :=
  { currentPage := 1, previews := [], hasMore := true }

/-- `EventPreviewIterator.fetchNextPage` (scraper.go lines 271-349).
`fetch` abstracts the HTTP GET + status check + document parse + teaser
selector for one page index: `none` is any transport/status/parse error,
`some nodes` the list of matched `li.SPmod-events-teaser` nodes. -/
def EventPreviewIterator.fetchNextPage (fetch : Nat → Option (List TeaserNode))
    (e : EventPreviewIterator) : EventPreviewIterator :=
  match fetch e.currentPage with
  | none => { e with hasMore := false }
  | some nodes =>
    let previews := nodes.map extractPreview
    if previews.length = 0 then { e with hasMore := false }
    else { e with previews := previews, currentPage := e.currentPage + 1 }

/-- `EventPreviewIterator.Next` (scraper.go lines 243-268). -/
def EventPreviewIterator.Next (fetch : Nat → Option (List TeaserNode))
    (e : EventPreviewIterator) : Option EventPreview × EventPreviewIterator :=
  match e.previews with
  | p :: rest => (some p, { e with previews := rest })
  | [] =>
    if e.hasMore = false then (none, e)
    else
      let e' := e.fetchNextPage fetch
      match e'.previews with
      | p :: rest => (some p, { e' with previews := rest })
      | [] => (none, e')

/-- The collection loop of `GetAllEventPreviews` (scraper.go lines 356-362),
with fuel. -/
def collectPreviewsLoop (fetch : Nat → Option (List TeaserNode)) :
    Nat → EventPreviewIterator → List EventPreview → Option (List EventPreview)
  | 0, _, _ => none
  | fuel + 1, e, acc =>
    match EventPreviewIterator.Next fetch e with
    | (some p, e') => collectPreviewsLoop fetch fuel e' (acc ++ [p])
    | (none, _) => some acc

/-- `GetAllEventPreviews` (scraper.go lines 352-365). -/
def GetAllEventPreviews (fetch : Nat → Option (List TeaserNode)) (fuel : Nat) :
    Option (List EventPreview) :=
  collectPreviewsLoop fetch fuel NewEventPreviewIterator []

/-! ## Parallel preview collector (`GetAllEventPreviewsParallel`,
scraper.go lines 368-481).  Unlike the sequential variant, its per-node
extraction calls `log.Fatalln` — killing the whole process — in the
success branch of each `time.Parse` (lines 434, 443). -/

/-- A `log.Fatalln` process termination inside the parallel preview
extraction, with the message it logs. -/
inductive Fatal where
  | startTime (t : GoTime)
  | endTime (t : GoTime)
deriving DecidableEq, Repr

/-- Per-node preview extraction of `GetAllEventPreviewsParallel`
(scraper.go lines 409-450): identical to `extractPreview` except that a
startDate (checked first) or endDate `content` attribute that parses
successfully triggers `log.Fatalln` before the parsed time is stored. -/
def extractPreviewPar (n : TeaserNode) : Except Fatal EventPreview :=
  let link : Str :=
    match n.urlHref with
    | some href =>
      if (strBytes "http").isPrefixOf href then href
      else strBytes "https://www.mainz.de" ++ href
    | none => []
  let locationText := trimSpace n.locationText
  match n.startDateAttr with
  | some a =>
    match parseISO8601 a with
    | some t => .error (.startTime t)
    | none =>
      match n.endDateAttr with
      | some b =>
        match parseISO8601 b with
        | some t => .error (.endTime t)
        | none =>
          .ok { Link := link, Title := trimSpace n.nameText
                Organizer := locationText, Location := locationText
                StartTime := GoTime.zero, EndTime := GoTime.zero }
      | none =>
        .ok { Link := link, Title := trimSpace n.nameText
              Organizer := locationText, Location := locationText
              StartTime := GoTime.zero, EndTime := GoTime.zero }
  | none =>
    match n.endDateAttr with
    | some b =>
      match parseISO8601 b with
      | some t => .error (.endTime t)
      | none =>
        .ok { Link := link, Title := trimSpace n.nameText
              Organizer := locationText, Location := locationText
              StartTime := GoTime.zero, EndTime := GoTime.zero }
    | none =>
      .ok { Link := link, Title := trimSpace n.nameText
            Organizer := locationText, Location := locationText
            StartTime := GoTime.zero, EndTime := GoTime.zero }

/-- One page-fetch task of the parallel preview round (scraper.go lines
381-455): `.error` is a `log.Fatalln` termination, `.ok none` a task that
sends nothing (fetch failure or no previews), `.ok (some pvs)` a task that
sends `pvs` on the channel. -/
def previewPageTask (fetch : Nat → Option (List TeaserNode)) (page : Nat) :
    Except Fatal (Option (List EventPreview)) :=
  match fetch page with
  | none => .ok none
  | some nodes => do
    let pvs ← nodes.mapM extractPreviewPar
    pure (if pvs.length > 0 then some pvs else none)

/-- The mutable state of the `GetAllEventPreviewsParallel` loop
(scraper.go lines 369-371). -/
structure PrevParState where
  allPreviews : List EventPreview
  currentPage : Nat
  hasMore : Bool
deriving DecidableEq, Repr

/-- The channel contents of one parallel preview round starting at page
`p`, tasks completing in order `ord`: each task either terminates the
process (`.error`), sends nothing (`.ok none` task), or sends its preview
list. -/
def previewRoundTasks (fetch : Nat → Option (List TeaserNode)) (p : Nat) :
    List Nat → Except Fatal (List (List EventPreview))
  | [] => .ok []
  | i :: rest =>
    match previewPageTask fetch (p + i) with
    | .error f => .error f
    | .ok none => previewRoundTasks fetch p rest
    | .ok (some pvs) =>
      match previewRoundTasks fetch p rest with
      | .error f => .error f
      | .ok contribs => .ok (pvs :: contribs)

/-- One round of the parallel preview loop (scraper.go lines 374-478), the
tasks run in completion order `ord`; any `log.Fatalln` in a task terminates
the process. -/
def previewParallelRound (fetch : Nat → Option (List TeaserNode))
    (ord : List Nat) (s : PrevParState) : Except Fatal PrevParState :=
  match previewRoundTasks fetch s.currentPage ord with
  | .error f => .error f
  | .ok contribs =>
    .ok { allPreviews := s.allPreviews ++ contribs.flatten
          currentPage := s.currentPage + batchSize
          hasMore := if contribs.length < batchSize then false else s.hasMore }

/-- The `for hasMore` loop of `GetAllEventPreviewsParallel`, with fuel:
`none` is fuel exhaustion, `some (.error f)` a `log.Fatalln` termination,
`some (.ok pvs)` a normal return. -/
def previewParallelLoop (fetch : Nat → Option (List TeaserNode))
    (sched : Nat → List Nat) :
    Nat → PrevParState → Option (Except Fatal (List EventPreview))
  | 0, s => if s.hasMore then none else some (.ok s.allPreviews)
  | fuel + 1, s =>
    if s.hasMore then
      match previewParallelRound fetch (sched s.currentPage) s with
      | .error f => some (.error f)
      | .ok s' => previewParallelLoop fetch sched fuel s'
    else some (.ok s.allPreviews)

/-- `GetAllEventPreviewsParallel` (scraper.go lines 368-481). -/
def GetAllEventPreviewsParallel (fetch : Nat → Option (List TeaserNode))
    (sched : Nat → List Nat) (fuel : Nat) :
    Option (Except Fatal (List EventPreview)) :=
  previewParallelLoop fetch sched fuel
    { allPreviews := [], currentPage := 1, hasMore := true }

/-! ## Detail-page scraper (`ScrapeEvent`, scraper.go lines 483-575) -/

/-- `calendar.Event` (internal/calendar, the fields `ScrapeEvent` fills). -/
structure Event where
  Title : Str
  Summary : Str
  Description : Str
  Location : Str
  Start : GoTime
  End : GoTime
deriving DecidableEq, Repr

/-- The aspects of the `article#SP-content` element that `ScrapeEvent`
reads (scraper.go lines 511-572): the heading text, the `datetime`
attribute of the startDate `time` element when present, the teaser text,
the description paragraphs' texts in source order, and the four location
contact texts. -/
structure DetailArticle where
  nameText : Str
  startDateAttr : Option Str
  teaserText : Str
  paragraphs : List Str
  organisationText : Str
  streetAddressText : Str
  postalCodeText : Str
  localityText : Str
deriving DecidableEq, Repr

/-- Description assembly of `ScrapeEvent` (scraper.go lines 531-537): fold
over the paragraph texts, inserting `"\n"` before every trimmed paragraph
appended to a non-empty accumulator. -/
def assembleDescription (paragraphs : List Str) : Str :=
  paragraphs.foldl
    (fun acc p => (if acc.length ≠ 0 then acc ++ [10] else acc) ++ trimSpace p)
    []

/-- The pure part of `ScrapeEvent` once the `article#SP-content` element is
found (scraper.go lines 502-574). -/
def scrapeArticle (a : DetailArticle) : Event :=
  let title := trimSpace a.nameText
  let (start, stop) :=
    match a.startDateAttr with
    | some dateAttr =>
      match parseYYYYMMDD dateAttr with
      | some startDate => (startDate, startDate)
      | none => (GoTime.zero, GoTime.zero)
    | none => (GoTime.zero, GoTime.zero)
  let teaser := trimSpace a.teaserText
  let description := assembleDescription a.paragraphs
  let (summary, description) :=
    if teaser.length ≠ 0 then (teaser, description)
    else if description.length > 100 then
      (description.take 100 ++ strBytes "...", description)
    else (description, description)
  let locationName := trimSpace a.organisationText
  let locationStreet := trimSpace a.streetAddressText
  let locationPostal := trimSpace a.postalCodeText
  let locationCity := trimSpace a.localityText
  let locationParts : List Str :=
    (if locationName.length ≠ 0 then [locationName] else []) ++
    (if locationStreet.length ≠ 0 then [locationStreet] else []) ++
    (if locationPostal.length ≠ 0 || locationCity.length ≠ 0 then
      [trimSpace (locationPostal ++ [32] ++ locationCity)] else [])
  { Title := title
    Summary := summary
    Description := description
    Location := (strBytes ", ").intercalate locationParts
    Start := start
    End := stop }

/-- The outcome of `http.Get` + `goquery.NewDocumentFromReader` for a
detail-page URL: a transport error, or a response with a status code and —
when the status is 200 and the body parses — the optional
`article#SP-content` element (`some none` = document parsed but the
article is absent; the body's parse outcome is irrelevant to `ScrapeEvent`
unless the status is 200, so it is modelled only there). -/
inductive DetailFetch where
  | transportError
  | response (status : Nat) (doc : Option (Option DetailArticle))
deriving DecidableEq, Repr

/-- The error cases of `ScrapeEvent` (scraper.go lines 487-508). -/
inductive ScrapeError where
  | fetchError
  | statusError (code : Nat)
  | parseError
  | contentNotFound
deriving DecidableEq, Repr

/-- `ScrapeEvent` (scraper.go lines 483-575). -/
def ScrapeEvent (r : DetailFetch) : Except ScrapeError Event :=
  match r with
  | .transportError => .error .fetchError
  | .response status doc =>
    if status ≠ 200 then .error (.statusError status)
    else
      match doc with
      | none => .error .parseError
      | some none => .error .contentNotFound
      | some (some article) => .ok (scrapeArticle article)

/-! ## Helper lemmas: sequential iterators -/

lemma linkNext_buffer (fetch : Nat → Option (List Str)) (cp : Nat) (l : Str)
    (rest : List Str) (hm : Bool) :
    EventLinkIterator.Next fetch ⟨cp, l :: rest, hm⟩ = (some l, ⟨cp, rest, hm⟩) := rfl

lemma linkNext_done (fetch : Nat → Option (List Str)) (cp : Nat) :
    EventLinkIterator.Next fetch ⟨cp, [], false⟩ = (none, ⟨cp, [], false⟩) := rfl

lemma linkNext_fetch_cons (fetch : Nat → Option (List Str)) (cp : Nat)
    (l : Str) (ls : List Str) (h : fetch cp = some (l :: ls)) :
    EventLinkIterator.Next fetch ⟨cp, [], true⟩ = (some l, ⟨cp + 1, ls, true⟩) := by
  simp [EventLinkIterator.Next, EventLinkIterator.fetchNextPage, h]

lemma linkNext_fetch_empty (fetch : Nat → Option (List Str)) (cp : Nat)
    (h : fetch cp = some [] ∨ fetch cp = none) :
    EventLinkIterator.Next fetch ⟨cp, [], true⟩ = (none, ⟨cp, [], false⟩) := by
  rcases h with h | h <;>
    simp [EventLinkIterator.Next, EventLinkIterator.fetchNextPage, h]

lemma linkNext_terminal_iterate (fetch : Nat → Option (List Str)) (cp : Nat) :
    ∀ k, (fun s => (EventLinkIterator.Next fetch s).2)^[k]
      (⟨cp, [], false⟩ : EventLinkIterator) = ⟨cp, [], false⟩ := by
  intro k
  induction k with
  | zero => rfl
  | succ k ih => rw [Function.iterate_succ_apply, linkNext_done]; exact ih

lemma previewNext_buffer (fetch : Nat → Option (List TeaserNode)) (cp : Nat)
    (p : EventPreview) (rest : List EventPreview) (hm : Bool) :
    EventPreviewIterator.Next fetch ⟨cp, p :: rest, hm⟩ = (some p, ⟨cp, rest, hm⟩) := rfl

lemma previewNext_done (fetch : Nat → Option (List TeaserNode)) (cp : Nat) :
    EventPreviewIterator.Next fetch ⟨cp, [], false⟩ = (none, ⟨cp, [], false⟩) := rfl

lemma previewNext_fetch_cons (fetch : Nat → Option (List TeaserNode)) (cp : Nat)
    (nd : TeaserNode) (nds : List TeaserNode) (h : fetch cp = some (nd :: nds)) :
    EventPreviewIterator.Next fetch ⟨cp, [], true⟩ =
      (some (extractPreview nd), ⟨cp + 1, nds.map extractPreview, true⟩) := by
  simp [EventPreviewIterator.Next, EventPreviewIterator.fetchNextPage, h]

lemma previewNext_fetch_empty (fetch : Nat → Option (List TeaserNode)) (cp : Nat)
    (h : fetch cp = some [] ∨ fetch cp = none) :
    EventPreviewIterator.Next fetch ⟨cp, [], true⟩ = (none, ⟨cp, [], false⟩) := by
  rcases h with h | h <;>
    simp [EventPreviewIterator.Next, EventPreviewIterator.fetchNextPage, h]

lemma previewNext_terminal_iterate (fetch : Nat → Option (List TeaserNode)) (cp : Nat) :
    ∀ k, (fun s => (EventPreviewIterator.Next fetch s).2)^[k]
      (⟨cp, [], false⟩ : EventPreviewIterator) = ⟨cp, [], false⟩ := by
  intro k
  induction k with
  | zero => rfl
  | succ k ih => rw [Function.iterate_succ_apply, previewNext_done]; exact ih

/-- Claim C1: for every state of the sequential link/preview iterator,
`Next` pops and returns the front of a non-empty buffer with `ok = true`;
with an empty buffer and `hasMore = false` it returns `ok = false` leaving
the state unchanged; with an empty buffer and `hasMore = true` it fetches
the page at the current index, and on a non-empty record list it returns
the first record with the rest buffered and the page counter incremented,
while on an empty result or a fetch/parse error it sets `hasMore := false`
and returns `ok = false`; and once the buffer is empty with
`hasMore = false`, every iterate of `Next` keeps returning `ok = false`
from the same state (the terminal state is permanent and idempotent). -/
theorem claim_C1_iterator_next (fetchL : Nat → Option (List Str))
    (fetchP : Nat → Option (List TeaserNode))
    (e : EventLinkIterator) (ep : EventPreviewIterator) :
    ((∀ l rest, e.links = l :: rest →
        EventLinkIterator.Next fetchL e = (some l, { e with links := rest })) ∧
     (e.links = [] → e.hasMore = false →
        EventLinkIterator.Next fetchL e = (none, e)) ∧
     (e.links = [] → e.hasMore = true →
        (∀ l ls, fetchL e.currentPage = some (l :: ls) →
          EventLinkIterator.Next fetchL e =
            (some l, ⟨e.currentPage + 1, ls, true⟩)) ∧
        (fetchL e.currentPage = some [] ∨ fetchL e.currentPage = none →
          EventLinkIterator.Next fetchL e = (none, { e with hasMore := false }))) ∧
     (e.links = [] → e.hasMore = false → ∀ k,
        EventLinkIterator.Next fetchL
          ((fun s => (EventLinkIterator.Next fetchL s).2)^[k] e) = (none, e))) ∧
    ((∀ nd rest, ep.previews = nd :: rest →
        EventPreviewIterator.Next fetchP ep = (some nd, { ep with previews := rest })) ∧
     (ep.previews = [] → ep.hasMore = false →
        EventPreviewIterator.Next fetchP ep = (none, ep)) ∧
     (ep.previews = [] → ep.hasMore = true →
        (∀ nd nds, fetchP ep.currentPage = some (nd :: nds) →
          EventPreviewIterator.Next fetchP ep =
            (some (extractPreview nd), ⟨ep.currentPage + 1, nds.map extractPreview, true⟩)) ∧
        (fetchP ep.currentPage = some [] ∨ fetchP ep.currentPage = none →
          EventPreviewIterator.Next fetchP ep = (none, { ep with hasMore := false }))) ∧
     (ep.previews = [] → ep.hasMore = false → ∀ k,
        EventPreviewIterator.Next fetchP
          ((fun s => (EventPreviewIterator.Next fetchP s).2)^[k] ep) = (none, ep))) := by
  obtain ⟨cp, links, hmore⟩ := e
  obtain ⟨cpp, pvs, hmp⟩ := ep
  refine ⟨⟨?_, ?_, ?_, ?_⟩, ⟨?_, ?_, ?_, ?_⟩⟩
  · rintro l rest rfl; exact linkNext_buffer fetchL cp l rest hmore
  · rintro rfl rfl; exact linkNext_done fetchL cp
  · rintro rfl rfl
    exact ⟨fun l ls h => linkNext_fetch_cons fetchL cp l ls h,
           fun h => linkNext_fetch_empty fetchL cp h⟩
  · rintro rfl rfl k
    rw [linkNext_terminal_iterate fetchL cp k]
    exact linkNext_done fetchL cp
  · rintro nd rest rfl; exact previewNext_buffer fetchP cpp nd rest hmp
  · rintro rfl rfl; exact previewNext_done fetchP cpp
  · rintro rfl rfl
    exact ⟨fun nd nds h => previewNext_fetch_cons fetchP cpp nd nds h,
           fun h => previewNext_fetch_empty fetchP cpp h⟩
  · rintro rfl rfl k
    rw [previewNext_terminal_iterate fetchP cpp k]
    exact previewNext_done fetchP cpp

/-- Witness for claim C1: the terminal-state branch at a concrete state. -/
theorem claim_C1_witness :
    EventLinkIterator.Next (fun _ => some []) ⟨3, [], false⟩ =
      (none, (⟨3, [], false⟩ : EventLinkIterator)) :=
  (claim_C1_iterator_next (fun _ => some []) (fun _ => some [])
    ⟨3, [], false⟩ ⟨1, [], true⟩).1.2.1 rfl rfl

/-! ## Helper lemmas: parallel link rounds -/

lemma length_filterMap_countP {α β : Type} (f : α → Option β) (l : List α) :
    (l.filterMap f).length = l.countP (fun a => (f a).isSome) := by
  induction l with
  | nil => rfl
  | cons a l ih => cases h : f a <;> simp [List.filterMap_cons, h, List.countP_cons, ih]

lemma mem_parallelRoundContrib_flatten (fetch : Nat → Option (List Str))
    (p : Nat) (ord : List Nat) (x : Str) :
    x ∈ (parallelRoundContrib fetch p ord).flatten ↔
      ∃ i ∈ ord, ∃ l, fetch (p + i) = some l ∧ x ∈ l := by
  simp only [parallelRoundContrib, List.mem_flatten, List.mem_filterMap]
  constructor
  · rintro ⟨l, ⟨i, hi, hf⟩, hx⟩
    refine ⟨i, hi, l, ?_, hx⟩
    cases h : fetch (p + i) with
    | none => rw [h] at hf; exact absurd hf (by simp)
    | some pl =>
      rw [h] at hf
      have hf' : (if pl.length > 0 then some pl else none) = some l := hf
      by_cases hpl : pl.length > 0
      · rw [if_pos hpl] at hf'
        exact hf'
      · rw [if_neg hpl] at hf'
        exact absurd hf' (by simp)
  · rintro ⟨i, hi, l, hf, hx⟩
    refine ⟨l, ⟨i, hi, ?_⟩, hx⟩
    rw [hf]
    have : l.length > 0 := List.length_pos.mpr (List.ne_nil_of_mem hx)
    simp [this]

lemma parallelRoundContrib_length (fetch : Nat → Option (List Str))
    (p : Nat) (ord : List Nat) :
    (parallelRoundContrib fetch p ord).length =
      ord.countP (fun i => pageYields fetch (p + i)) := by
  rw [parallelRoundContrib, length_filterMap_countP]
  congr 1
  funext i
  cases h : fetch (p + i) with
  | none => simp [h, pageYields]
  | some pl => cases pl <;> simp [h, pageYields]

lemma parallelLoop_stopped (fetch : Nat → Option (List Str))
    (sched : Nat → List Nat) (fuel : Nat) (s : ParState)
    (h : s.hasMore = false) :
    parallelLoop fetch sched fuel s = some s.allLinks := by
  cases fuel <;> simp [parallelLoop, h]

/-- Claim C2: in one round of the parallel paginator, a failing page task
contributes no records while every successful page's records are kept; the
page cursor advances by exactly `batchSize` regardless of content; the
round clears `hasMore` exactly when fewer than `batchSize` of its pages
yielded at least one record; and once `hasMore` is cleared the loop stops,
returning the links collected so far (the terminating round's records
included). -/
theorem claim_C2_parallel_round (fetch : Nat → Option (List Str))
    (sched : Nat → List Nat) (s : ParState) (ord : List Nat)
    (hperm : ord.Perm (List.range batchSize)) :
    (∀ x, x ∈ (parallelRound fetch ord s).allLinks ↔
        x ∈ s.allLinks ∨
        ∃ i < batchSize, ∃ l, fetch (s.currentPage + i) = some l ∧ x ∈ l) ∧
    (parallelRound fetch ord s).currentPage = s.currentPage + batchSize ∧
    (s.hasMore = true →
      ((parallelRound fetch ord s).hasMore = false ↔
        (List.range batchSize).countP
          (fun i => pageYields fetch (s.currentPage + i)) < batchSize)) ∧
    ((parallelRound fetch ord s).hasMore = false → ∀ fuel,
      parallelLoop fetch sched fuel (parallelRound fetch ord s) =
        some (parallelRound fetch ord s).allLinks) := by
  refine ⟨?_, rfl, ?_, ?_⟩
  · intro x
    simp only [parallelRound, List.mem_append,
      mem_parallelRoundContrib_flatten fetch s.currentPage ord x]
    constructor
    · rintro (hx | ⟨i, hi, l, hf, hx⟩)
      · exact Or.inl hx
      · exact Or.inr ⟨i, List.mem_range.mp (hperm.mem_iff.mp hi), l, hf, hx⟩
    · rintro (hx | ⟨i, hi, l, hf, hx⟩)
      · exact Or.inl hx
      · exact Or.inr ⟨i, hperm.mem_iff.mpr (List.mem_range.mpr hi), l, hf, hx⟩
  · intro hm
    simp only [parallelRound, hm]
    rw [parallelRoundContrib_length, hperm.countP_eq]
    by_cases hcnt :
      (List.range batchSize).countP (fun i => pageYields fetch (s.currentPage + i)) <
        batchSize <;> simp [hcnt]
  · intro h fuel
    exact parallelLoop_stopped fetch sched fuel _ h

/-- Witness for claim C2: the cursor-advance conjunct at a concrete round
(page 1, a fetch where only pages 1 and 2 have content). -/
theorem claim_C2_witness :
    (parallelRound (fun p => if p ≤ 2 then some [[p]] else none)
      (List.range batchSize) ⟨[], 1, true⟩).currentPage = 1 + batchSize :=
  (claim_C2_parallel_round (fun p => if p ≤ 2 then some [[p]] else none)
    (fun _ => List.range batchSize) ⟨[], 1, true⟩ (List.range batchSize)
    (List.Perm.refl _)).2.1

/-! ## Helper lemmas: sequential/parallel link-set equivalence -/

/-- A valid multi-page listing: every page `1..n` fetches successfully with
at least one link, every later page fetches successfully with no links. -/
def ValidListing (fetch : Nat → Option (List Str)) (n : Nat) : Prop :=
  (∀ p, 1 ≤ p → p ≤ n → ∃ l, fetch p = some l ∧ l ≠ []) ∧
  (∀ p, n < p → fetch p = some [])

lemma collectLinksLoop_drain (fetch : Nat → Option (List Str)) :
    ∀ (buf : List Str) (fuel cp : Nat) (hm : Bool) (acc : List Str),
      collectLinksLoop fetch (buf.length + fuel) ⟨cp, buf, hm⟩ acc =
        collectLinksLoop fetch fuel ⟨cp, [], hm⟩ (acc ++ buf) := by
  intro buf
  induction buf with
  | nil => intro fuel cp hm acc; simp
  | cons x xs ih =>
    intro fuel cp hm acc
    have hstep :
        collectLinksLoop fetch (xs.length + fuel + 1) ⟨cp, x :: xs, hm⟩ acc =
          collectLinksLoop fetch (xs.length + fuel) ⟨cp, xs, hm⟩ (acc ++ [x]) := by
      rw [collectLinksLoop, linkNext_buffer]
    have hlen : (x :: xs).length + fuel = xs.length + fuel + 1 := by
      simp [Nat.succ_add]
    rw [hlen, hstep, ih fuel cp hm (acc ++ [x])]
    simp

lemma seq_collect_valid (fetch : Nat → Option (List Str)) (n : Nat)
    (hv : ValidListing fetch n) :
    ∀ (k p : Nat) (acc : List Str), p + k = n + 1 → 1 ≤ p →
      ∃ fuel, collectLinksLoop fetch fuel ⟨p, [], true⟩ acc =
        some (acc ++ (List.range' p k).flatMap (fun q => (fetch q).getD [])) := by
  intro k
  induction k with
  | zero =>
    intro p acc hpk _
    refine ⟨1, ?_⟩
    have hf : fetch p = some [] := hv.2 p (by omega)
    rw [collectLinksLoop, linkNext_fetch_empty fetch p (Or.inl hf)]
    simp
  | succ k ih =>
    intro p acc hpk hp
    obtain ⟨l, hf, hl⟩ := hv.1 p hp (by omega)
    obtain ⟨x, xs, rfl⟩ : ∃ y ys, l = y :: ys := by
      cases l with
      | nil => exact absurd rfl hl
      | cons y ys => exact ⟨y, ys, rfl⟩
    obtain ⟨fuel₂, hrec⟩ := ih (p + 1) (acc ++ (x :: xs)) (by omega) (by omega)
    refine ⟨xs.length + fuel₂ + 1, ?_⟩
    rw [collectLinksLoop, linkNext_fetch_cons fetch p x xs hf]
    show collectLinksLoop fetch (xs.length + fuel₂) ⟨p + 1, xs, true⟩ (acc ++ [x]) =
      some (acc ++ (List.range' p (k + 1)).flatMap (fun q => (fetch q).getD []))
    rw [collectLinksLoop_drain fetch xs fuel₂ (p + 1) true (acc ++ [x])]
    have hacc : acc ++ [x] ++ xs = acc ++ (x :: xs) := by simp
    rw [hacc, hrec, List.range'_succ, List.flatMap_cons, hf]
    simp

lemma valid_pageYields (fetch : Nat → Option (List Str)) (n : Nat)
    (hv : ValidListing fetch n) (q : Nat) (hq : 1 ≤ q) :
    pageYields fetch q = decide (q ≤ n) := by
  by_cases h : q ≤ n
  · obtain ⟨l, hf, hl⟩ := hv.1 q hq h
    cases l with
    | nil => exact absurd rfl hl
    | cons y ys => simp [pageYields, hf, h]
  · have hf : fetch q = some [] := hv.2 q (by omega)
    simp [pageYields, hf, h]

lemma mem_contrib_valid (fetch : Nat → Option (List Str)) (n : Nat)
    (hv : ValidListing fetch n) (p : Nat) (ord : List Nat)
    (hperm : ord.Perm (List.range batchSize)) (x : Str) :
    x ∈ (parallelRoundContrib fetch p ord).flatten ↔
      ∃ q, p ≤ q ∧ q < p + batchSize ∧ q ≤ n ∧ x ∈ (fetch q).getD [] := by
  rw [mem_parallelRoundContrib_flatten]
  constructor
  · rintro ⟨i, hi, l, hf, hx⟩
    have hilt : i < batchSize := List.mem_range.mp (hperm.mem_iff.mp hi)
    refine ⟨p + i, by omega, by omega, ?_, ?_⟩
    · by_contra hgt
      have : fetch (p + i) = some [] := hv.2 (p + i) (by omega)
      rw [this] at hf
      obtain rfl : l = [] := by injection hf with h; exact h.symm
      exact absurd hx (List.not_mem_nil x)
    · rw [hf]; exact hx
  · rintro ⟨q, hpq, hqlt, hqn, hx⟩
    refine ⟨q - p, hperm.mem_iff.mpr (List.mem_range.mpr (by omega)), ?_⟩
    cases hfq : fetch q with
    | none => rw [hfq] at hx; exact absurd hx (List.not_mem_nil x)
    | some l =>
      have : p + (q - p) = q := by omega
      rw [this, hfq]
      rw [hfq] at hx
      exact ⟨l, rfl, hx⟩

lemma round_count_valid (fetch : Nat → Option (List Str)) (n : Nat)
    (hv : ValidListing fetch n) (p : Nat) (hp : 1 ≤ p) (ord : List Nat)
    (hperm : ord.Perm (List.range batchSize)) :
    ((parallelRoundContrib fetch p ord).length < batchSize) ↔ n < p + 9 := by
  rw [parallelRoundContrib_length, hperm.countP_eq]
  have hcount : ∀ i ∈ List.range batchSize,
      (pageYields fetch (p + i) = decide (p + i ≤ n)) := by
    intro i _
    exact valid_pageYields fetch n hv (p + i) (by omega)
  constructor
  · intro hlt
    by_contra hn
    have hall : ∀ i ∈ List.range batchSize, pageYields fetch (p + i) = true := by
      intro i hi
      rw [hcount i hi]
      have : i < batchSize := List.mem_range.mp hi
      simp [batchSize] at this
      simp; omega
    have := List.countP_eq_length.mpr hall
    rw [this, List.length_range] at hlt
    omega
  · intro hn
    have h9 : (9 : Nat) ∈ List.range batchSize := by decide
    have hne : (List.range batchSize).countP (fun i => pageYields fetch (p + i)) ≠
        (List.range batchSize).length := by
      intro heq
      have := (List.countP_eq_length.mp heq) 9 h9
      rw [hcount 9 h9] at this
      simp at this
      omega
    have hle := @List.countP_le_length Nat
      (fun i => pageYields fetch (p + i)) (List.range batchSize)
    rw [List.length_range] at hne hle
    omega

lemma par_loop_valid (fetch : Nat → Option (List Str)) (n : Nat)
    (sched : Nat → List Nat) (hv : ValidListing fetch n)
    (hs : ∀ p, (sched p).Perm (List.range batchSize)) :
    ∀ (fuel p : Nat) (acc : List Str), 1 ≤ p → n < p + 9 + batchSize * fuel →
      ∃ r, parallelLoop fetch sched (fuel + 1) ⟨acc, p, true⟩ = some r ∧
        ∀ x, x ∈ r ↔ x ∈ acc ∨ ∃ q, p ≤ q ∧ q ≤ n ∧ x ∈ (fetch q).getD [] := by
  intro fuel
  induction fuel with
  | zero =>
    intro p acc hp hn
    simp only [batchSize, Nat.mul_zero, Nat.add_zero] at hn
    have hcnt : (parallelRoundContrib fetch p (sched p)).length < batchSize :=
      (round_count_valid fetch n hv p hp (sched p) (hs p)).mpr hn
    have hstate : (parallelRound fetch (sched p) ⟨acc, p, true⟩).hasMore = false := by
      simp [parallelRound, hcnt]
    refine ⟨(parallelRound fetch (sched p) ⟨acc, p, true⟩).allLinks, ?_, ?_⟩
    · rw [parallelLoop]
      simp only [if_pos rfl]
      exact parallelLoop_stopped fetch sched 0 _ hstate
    · intro x
      simp only [parallelRound, List.mem_append]
      rw [mem_contrib_valid fetch n hv p (sched p) (hs p) x]
      constructor
      · rintro (hx | ⟨q, h1, _, h3, h4⟩)
        · exact Or.inl hx
        · exact Or.inr ⟨q, h1, h3, h4⟩
      · rintro (hx | ⟨q, h1, h3, h4⟩)
        · exact Or.inl hx
        · exact Or.inr ⟨q, h1, by simp [batchSize]; omega, h3, h4⟩
  | succ fuel ih =>
    intro p acc hp hn
    by_cases hterm : n < p + 9
    · have hcnt : (parallelRoundContrib fetch p (sched p)).length < batchSize :=
        (round_count_valid fetch n hv p hp (sched p) (hs p)).mpr hterm
      have hstate : (parallelRound fetch (sched p) ⟨acc, p, true⟩).hasMore = false := by
        simp [parallelRound, hcnt]
      refine ⟨(parallelRound fetch (sched p) ⟨acc, p, true⟩).allLinks, ?_, ?_⟩
      · rw [parallelLoop]
        simp only [if_pos rfl]
        exact parallelLoop_stopped fetch sched (fuel + 1) _ hstate
      · intro x
        simp only [parallelRound, List.mem_append]
        rw [mem_contrib_valid fetch n hv p (sched p) (hs p) x]
        constructor
        · rintro (hx | ⟨q, h1, _, h3, h4⟩)
          · exact Or.inl hx
          · exact Or.inr ⟨q, h1, h3, h4⟩
        · rintro (hx | ⟨q, h1, h3, h4⟩)
          · exact Or.inl hx
          · exact Or.inr ⟨q, h1, by simp [batchSize]; omega, h3, h4⟩
    · have hcnt : ¬ (parallelRoundContrib fetch p (sched p)).length < batchSize := by
        rw [round_count_valid fetch n hv p hp (sched p) (hs p)]
        exact hterm
      have hstate : parallelRound fetch (sched p) ⟨acc, p, true⟩ =
          ⟨acc ++ (parallelRoundContrib fetch p (sched p)).flatten,
            p + batchSize, true⟩ := by
        simp [parallelRound, hcnt]
      obtain ⟨r, hloop, hmem⟩ :=
        ih (p + batchSize)
          (acc ++ (parallelRoundContrib fetch p (sched p)).flatten)
          (by omega) (by simp [batchSize] at hn ⊢; omega)
      refine ⟨r, ?_, ?_⟩
      · rw [parallelLoop]
        simp only [if_pos rfl]
        rw [hstate]
        exact hloop
      · intro x
        rw [hmem x, List.mem_append,
          mem_contrib_valid fetch n hv p (sched p) (hs p) x]
        constructor
        · rintro ((hx | ⟨q, h1, _, h3, h4⟩) | ⟨q, h1, h2, h3⟩)
          · exact Or.inl hx
          · exact Or.inr ⟨q, h1, h3, h4⟩
          · exact Or.inr ⟨q, by omega, h2, h3⟩
        · rintro (hx | ⟨q, h1, h2, h3⟩)
          · exact Or.inl (Or.inl hx)
          · by_cases hq : q < p + batchSize
            · exact Or.inl (Or.inr ⟨q, h1, hq, h2, h3⟩)
            · exact Or.inr ⟨q, by omega, h2, h3⟩

/-- Claim C3: for every valid multi-page listing (pages `1..n` each yield
at least one link, later pages yield none, no fetch errors), the
sequential collector `GetAllEventLinks` and the parallel collector
`GetAllEventLinksParallel` both terminate (for suitable fuel) and return
the same set of links, whatever the parallel completion order. -/
theorem claim_C3_seq_par_same_set (fetch : Nat → Option (List Str)) (n : Nat)
    (sched : Nat → List Nat) (hv : ValidListing fetch n)
    (hs : ∀ p, (sched p).Perm (List.range batchSize)) :
    ∃ fuelS fuelP seqLinks parLinks,
      GetAllEventLinks fetch fuelS = some seqLinks ∧
      GetAllEventLinksParallel fetch sched fuelP = some parLinks ∧
      ∀ x, x ∈ seqLinks ↔ x ∈ parLinks := by
  obtain ⟨fuelS, hseq⟩ := seq_collect_valid fetch n hv n 1 [] (by omega) (by omega)
  obtain ⟨r, hpar, hmem⟩ :=
    par_loop_valid fetch n sched hv hs n 1 [] (by omega)
      (by simp [batchSize]; omega)
  refine ⟨fuelS, n + 1, _, r, hseq, hpar, ?_⟩
  intro x
  rw [hmem x]
  simp only [List.nil_append, List.mem_flatMap, List.not_mem_nil, false_or]
  constructor
  · rintro ⟨q, hq, hx⟩
    have := List.mem_range'_1.mp hq
    exact ⟨q, by omega, by omega, hx⟩
  · rintro ⟨q, h1, h2, hx⟩
    exact ⟨q, List.mem_range'_1.mpr ⟨h1, by omega⟩, hx⟩

/-- Witness for claim C3: a two-page listing with one link on page 1 and
two on page 2. -/
theorem claim_C3_witness :
    ∃ fuelS fuelP seqLinks parLinks,
      GetAllEventLinks
        (fun p => if p = 1 then some [[97]] else
          if p = 2 then some [[98], [99]] else some []) fuelS = some seqLinks ∧
      GetAllEventLinksParallel
        (fun p => if p = 1 then some [[97]] else
          if p = 2 then some [[98], [99]] else some [])
        (fun _ => List.range batchSize) fuelP = some parLinks ∧
      ∀ x, x ∈ seqLinks ↔ x ∈ parLinks :=
  claim_C3_seq_par_same_set
    (fun p => if p = 1 then some [[97]] else
      if p = 2 then some [[98], [99]] else some []) 2
    (fun _ => List.range batchSize)
    ⟨by
      intro p h1 h2
      interval_cases p
      · exact ⟨[[97]], rfl, by simp⟩
      · exact ⟨[[98], [99]], rfl, by simp⟩,
     by
      intro p hp
      have h1 : p ≠ 1 := by omega
      have h2 : p ≠ 2 := by omega
      simp [h1, h2]⟩
    (fun _ => List.Perm.refl _)

/-! ## Helper lemmas: the parallel preview collector's fatal exits -/

/-- A teaser node whose start- or end-date attribute parses successfully
(the trigger of the `log.Fatalln` calls at scraper.go lines 434/443). -/
def nodeParsesTime (nd : TeaserNode) : Bool :=
  (nd.startDateAttr.bind parseISO8601).isSome ||
  (nd.endDateAttr.bind parseISO8601).isSome

lemma extractPreviewPar_ok_iff (nd : TeaserNode) :
    (∃ pv, extractPreviewPar nd = .ok pv) ↔ nodeParsesTime nd = false := by
  unfold extractPreviewPar nodeParsesTime
  rcases hs : nd.startDateAttr with _ | a
  · rcases he : nd.endDateAttr with _ | b
    · simp
    · rcases hp : parseISO8601 b with _ | t <;> simp [hp]
  · rcases hp : parseISO8601 a with _ | t
    · rcases he : nd.endDateAttr with _ | b
      · simp [hp]
      · rcases hq : parseISO8601 b with _ | t <;> simp [hp, hq]
    · simp [hp]

lemma mapM_extractPreviewPar_ok (nodes : List TeaserNode) :
    ∀ pvs, nodes.mapM extractPreviewPar = .ok pvs →
      ∀ nd ∈ nodes, nodeParsesTime nd = false := by
  induction nodes with
  | nil => intro pvs _ nd h; exact absurd h (List.not_mem_nil nd)
  | cons a l ih =>
    intro pvs h nd hnd
    rw [List.mapM_cons] at h
    cases ha : extractPreviewPar a with
    | error f => rw [ha] at h; exact absurd h (by simp [Bind.bind, Except.bind])
    | ok pv =>
      rw [ha] at h
      cases hl : l.mapM extractPreviewPar with
      | error f => rw [hl] at h; exact absurd h (by simp [Bind.bind, Except.bind])
      | ok pvl =>
        rcases List.mem_cons.mp hnd with rfl | hmem
        · exact (extractPreviewPar_ok_iff nd).mp ⟨pv, ha⟩
        · exact ih pvl hl nd hmem

lemma previewPageTask_ok_nonfatal (fetch : Nat → Option (List TeaserNode))
    (q : Nat) (o : Option (List EventPreview))
    (h : previewPageTask fetch q = .ok o) :
    ∀ nd ∈ (fetch q).getD [], nodeParsesTime nd = false := by
  intro nd hnd
  cases hf : fetch q with
  | none => rw [hf] at hnd; exact absurd hnd (List.not_mem_nil nd)
  | some nodes =>
    rw [hf] at hnd
    rw [previewPageTask, hf] at h
    have h' : (do
        let pvs ← nodes.mapM extractPreviewPar
        pure (if pvs.length > 0 then some pvs else none) :
          Except Fatal (Option (List EventPreview))) = .ok o := h
    cases hm : nodes.mapM extractPreviewPar with
    | error f => rw [hm] at h'; exact absurd h' (by simp [Bind.bind, Except.bind])
    | ok pvs => exact mapM_extractPreviewPar_ok nodes pvs hm nd hnd

lemma previewRoundTasks_ok_nonfatal (fetch : Nat → Option (List TeaserNode))
    (p : Nat) :
    ∀ (ord : List Nat) (contribs : List (List EventPreview)),
      previewRoundTasks fetch p ord = .ok contribs →
      ∀ i ∈ ord, ∀ nd ∈ (fetch (p + i)).getD [], nodeParsesTime nd = false := by
  intro ord
  induction ord with
  | nil => intro contribs _ i hi; exact absurd hi (List.not_mem_nil i)
  | cons j rest ih =>
    intro contribs h i hi
    rw [previewRoundTasks] at h
    cases ht : previewPageTask fetch (p + j) with
    | error f => rw [ht] at h; exact absurd h (by simp)
    | ok o =>
      rw [ht] at h
      rcases List.mem_cons.mp hi with rfl | hmem
      · exact previewPageTask_ok_nonfatal fetch (p + i) o ht
      · cases o with
        | none => exact ih contribs h i hmem
        | some pvs =>
          cases hr : previewRoundTasks fetch p rest with
          | error f => rw [hr] at h; exact absurd h (by simp)
          | ok cs => exact ih cs hr i hmem

lemma preview_loop_ok_nonfatal (fetch : Nat → Option (List TeaserNode))
    (sched : Nat → List Nat)
    (hs : ∀ p, (sched p).Perm (List.range batchSize)) :
    ∀ (fuel : Nat) (s : PrevParState) (pvs : List EventPreview),
      previewParallelLoop fetch sched fuel s = some (.ok pvs) →
      s.hasMore = true →
      ∃ k, 1 ≤ k ∧ ∀ q, s.currentPage ≤ q → q < s.currentPage + batchSize * k →
        ∀ nd ∈ (fetch q).getD [], nodeParsesTime nd = false := by
  intro fuel
  induction fuel with
  | zero =>
    intro s pvs h hm
    rw [previewParallelLoop, if_pos hm] at h
    exact absurd h (by simp)
  | succ fuel ih =>
    intro s pvs h hm
    rw [previewParallelLoop, if_pos hm] at h
    cases hr : previewParallelRound fetch (sched s.currentPage) s with
    | error f => rw [hr] at h; exact absurd h (by simp)
    | ok s' =>
      rw [hr] at h
      have hcontribs : ∃ contribs,
          previewRoundTasks fetch s.currentPage (sched s.currentPage) = .ok contribs := by
        rw [previewParallelRound] at hr
        cases hq : previewRoundTasks fetch s.currentPage (sched s.currentPage) with
        | error f => rw [hq] at hr; exact absurd hr (by simp)
        | ok cs => exact ⟨cs, rfl⟩
      obtain ⟨contribs, htasks⟩ := hcontribs
      have hround : ∀ q, s.currentPage ≤ q → q < s.currentPage + batchSize →
          ∀ nd ∈ (fetch q).getD [], nodeParsesTime nd = false := by
        intro q h1 h2 nd hnd
        have hiq : q - s.currentPage ∈ sched s.currentPage :=
          (hs s.currentPage).mem_iff.mpr (List.mem_range.mpr (by omega))
        have := previewRoundTasks_ok_nonfatal fetch s.currentPage
          (sched s.currentPage) contribs htasks (q - s.currentPage) hiq
        have hq : s.currentPage + (q - s.currentPage) = q := by omega
        rw [hq] at this
        exact this nd hnd
      have hs'page : s'.currentPage = s.currentPage + batchSize := by
        rw [previewParallelRound, htasks] at hr
        injection hr with hr'
        rw [← hr']
      cases hm' : s'.hasMore with
      | false =>
        refine ⟨1, le_refl 1, ?_⟩
        intro q h1 h2 nd hnd
        exact hround q h1 (by omega) nd hnd
      | true =>
        obtain ⟨k, hk1, hk⟩ := ih s' pvs h hm'
        refine ⟨k + 1, by omega, ?_⟩
        intro q h1 h2 nd hnd
        by_cases hq : q < s.currentPage + batchSize
        · exact hround q h1 hq nd hnd
        · have h1' : s'.currentPage ≤ q := by omega
          have h2' : q < s'.currentPage + batchSize * k := by
            rw [hs'page]
            have : batchSize * (k + 1) = batchSize * k + batchSize := by ring
            omega
          exact hk q h1' h2' nd hnd

/-- Claim C4: in `GetAllEventPreviewsParallel`, a preview node whose
startDate (checked first) or endDate meta attribute parses successfully
makes the extraction invoke `log.Fatalln` — terminating the process —
before the parsed time is stored; consequently, whenever the collector
returns normally, no node of any page fetched during its rounds carried a
parsable start or end timestamp. -/
theorem claim_C4_parallel_previews_fatal (fetch : Nat → Option (List TeaserNode))
    (sched : Nat → List Nat) (fuel : Nat) (pvs : List EventPreview)
    (hs : ∀ p, (sched p).Perm (List.range batchSize)) :
    (∀ nd a t, nd.startDateAttr = some a → parseISO8601 a = some t →
      extractPreviewPar nd = .error (.startTime t)) ∧
    (∀ nd b t, nd.startDateAttr.bind parseISO8601 = none →
      nd.endDateAttr = some b → parseISO8601 b = some t →
      extractPreviewPar nd = .error (.endTime t)) ∧
    (GetAllEventPreviewsParallel fetch sched fuel = some (.ok pvs) →
      ∃ k, 1 ≤ k ∧ ∀ q, 1 ≤ q → q < 1 + batchSize * k →
        ∀ nd ∈ (fetch q).getD [],
          nd.startDateAttr.bind parseISO8601 = none ∧
          nd.endDateAttr.bind parseISO8601 = none) := by
  refine ⟨?_, ?_, ?_⟩
  · intro nd a t h1 h2
    simp [extractPreviewPar, h1, h2]
  · intro nd b t h1 h2 h3
    rcases hsa : nd.startDateAttr with _ | a
    · simp [extractPreviewPar, hsa, h2, h3]
    · rw [hsa] at h1
      have h1' : parseISO8601 a = none := h1
      simp [extractPreviewPar, hsa, h1', h2, h3]
  · intro hret
    obtain ⟨k, hk1, hk⟩ := preview_loop_ok_nonfatal fetch sched hs fuel
      ⟨[], 1, true⟩ pvs hret rfl
    refine ⟨k, hk1, ?_⟩
    intro q h1 h2 nd hnd
    have := hk q h1 h2 nd hnd
    rw [nodeParsesTime, Bool.or_eq_false_iff] at this
    constructor
    · cases hc : nd.startDateAttr.bind parseISO8601 with
      | none => rfl
      | some t => rw [hc] at this; simp at this
    · cases hc : nd.endDateAttr.bind parseISO8601 with
      | none => rfl
      | some t => rw [hc] at this; simp at this

/-- Witness for claim C4: a node with a parsable startDate attribute makes
the parallel extraction die with the `log.Fatalln` carrying the parsed
time. -/
theorem claim_C4_witness :
    extractPreviewPar
      ⟨none, [], [], some (strBytes "2025-03-16T18:00:00+0100"), none⟩ =
      .error (.startTime ⟨2025, 3, 16, 18, 0, 0, 60⟩) :=
  (claim_C4_parallel_previews_fatal (fun _ => some [])
    (fun _ => List.range batchSize) 1 [] (fun _ => List.Perm.refl _)).1
    ⟨none, [], [], some (strBytes "2025-03-16T18:00:00+0100"), none⟩
    (strBytes "2025-03-16T18:00:00+0100") ⟨2025, 3, 16, 18, 0, 0, 60⟩
    rfl (by decide)

/-! ## Claims about the detail-page scraper -/

/-- Counterexample to claim C5 as stated: a detail page with no teaser and
a single 51-character paragraph of `'ä'` (two UTF-8 bytes each, so 102
bytes).  The claim says that with no teaser and a description of at most
100 characters, summary and description are both the full description; the
code instead compares and slices Go-string *bytes* (`len(description)`,
`description[:100]`), so it truncates: the summary differs from the
description. -/
theorem claim_C5_counterexample :
    trimSpace (DetailArticle.teaserText
      ⟨[], none, [], [(List.replicate 51 [195, 164]).flatten], [], [], [], []⟩) = [] ∧
    utf8CharCount ((scrapeArticle
      ⟨[], none, [], [(List.replicate 51 [195, 164]).flatten], [], [], [], []⟩).Description) ≤ 100 ∧
    (scrapeArticle
      ⟨[], none, [], [(List.replicate 51 [195, 164]).flatten], [], [], [], []⟩).Summary ≠
    (scrapeArticle
      ⟨[], none, [], [(List.replicate 51 [195, 164]).flatten], [], [], [], []⟩).Description := by
  refine ⟨rfl, by decide, by decide⟩

/-- Claim C5, amended: with a non-empty teaser the summary is the teaser
verbatim; otherwise, if the description exceeds 100 *UTF-8 bytes* (Go
`len`), the summary is the first 100 *bytes* of the description (Go
slicing) followed by the three-dot ellipsis marker, and otherwise the
summary is the description itself; the description is always the full
newline-separated paragraph concatenation. -/
theorem claim_C5_amended_summary (a : DetailArticle) :
    (scrapeArticle a).Description = assembleDescription a.paragraphs ∧
    (scrapeArticle a).Summary =
      (if (trimSpace a.teaserText).length ≠ 0 then trimSpace a.teaserText
       else if (assembleDescription a.paragraphs).length > 100 then
         (assembleDescription a.paragraphs).take 100 ++ strBytes "..."
       else assembleDescription a.paragraphs) := by
  by_cases h1 : (trimSpace a.teaserText).length ≠ 0
  · constructor <;> simp [scrapeArticle, h1]
  · by_cases h2 : (assembleDescription a.paragraphs).length > 100
    · constructor <;> simp [scrapeArticle, h1, h2]
    · constructor <;> simp [scrapeArticle, h1, h2]

lemma parseYYYYMMDD_midnight (s : Str) (t : GoTime)
    (h : parseYYYYMMDD s = some t) :
    t.hour = 0 ∧ t.minute = 0 ∧ t.second = 0 ∧ t.offsetMinutes = 0 := by
  unfold parseYYYYMMDD at h
  split at h
  · split at h
    · dsimp only at h
      split at h
      · injection h with h'
        subst h'
        exact ⟨rfl, rfl, rfl, rfl⟩
      · exact absurd h (by simp)
    · exact absurd h (by simp)
  · exact absurd h (by simp)

/-- Claim C6: when the detail page's startDate `time` element carries a
`datetime` attribute that parses in `YYYY-MM-DD` form, the extracted
Event's start and end both equal midnight of that calendar day. -/
theorem claim_C6_date_roundtrip (a : DetailArticle) (d : Str) (t : GoTime)
    (h1 : a.startDateAttr = some d) (h2 : parseYYYYMMDD d = some t) :
    (scrapeArticle a).Start = t ∧ (scrapeArticle a).End = t ∧
    t.hour = 0 ∧ t.minute = 0 ∧ t.second = 0 ∧ t.offsetMinutes = 0 := by
  obtain ⟨hh, hm, hs, ho⟩ := parseYYYYMMDD_midnight d t h2
  refine ⟨?_, ?_, hh, hm, hs, ho⟩ <;> simp [scrapeArticle, h1, h2]

/-- Witness for claim C6: the spec's example date `2025-03-16`. -/
theorem claim_C6_witness :
    (scrapeArticle ⟨[], some (strBytes "2025-03-16"), [], [], [], [], [], []⟩).Start =
      ⟨2025, 3, 16, 0, 0, 0, 0⟩ :=
  (claim_C6_date_roundtrip ⟨[], some (strBytes "2025-03-16"), [], [], [], [], [], []⟩
    (strBytes "2025-03-16") ⟨2025, 3, 16, 0, 0, 0, 0⟩ rfl (by decide)).1

/-! ## Helper lemmas: trimming and the location segment -/

lemma countP_dropWhile_not (p : Nat → Bool) (z : Str) :
    (z.dropWhile p).countP (fun b => !p b) = z.countP (fun b => !p b) := by
  induction z with
  | nil => rfl
  | cons b bs ih =>
    by_cases hb : p b
    · rw [List.dropWhile_cons_of_pos hb, ih, List.countP_cons]
      simp [hb]
    · rw [List.dropWhile_cons_of_neg hb]

lemma trimSpace_countP (z : Str) :
    (trimSpace z).countP (fun b => !isSpaceByte b) =
      z.countP (fun b => !isSpaceByte b) := by
  rw [trimSpace]
  rw [List.countP_reverse, countP_dropWhile_not, List.countP_reverse,
    countP_dropWhile_not]

lemma trimSpace_eq_nil_iff (z : Str) :
    trimSpace z = [] ↔ z.countP (fun b => !isSpaceByte b) = 0 := by
  constructor
  · intro h
    rw [← trimSpace_countP, h]
    rfl
  · intro h
    have hall : ∀ b ∈ z, isSpaceByte b = true := by
      intro b hb
      have := List.countP_eq_zero.mp h b hb
      simpa using this
    rw [trimSpace, List.dropWhile_eq_nil_iff.mpr hall]
    rfl

lemma location_segment_nil_iff (P C : Str) :
    trimSpace (trimSpace P ++ [32] ++ trimSpace C) = [] ↔
      trimSpace P = [] ∧ trimSpace C = [] := by
  rw [trimSpace_eq_nil_iff, List.countP_append, List.countP_append,
    trimSpace_eq_nil_iff P, trimSpace_eq_nil_iff C,
    ← trimSpace_countP P, ← trimSpace_countP C]
  have h32 : ([32] : Str).countP (fun b => !isSpaceByte b) = 0 := rfl
  rw [h32]
  omega

/-- Claim C7: the Event's location is the comma-separated join of exactly
the non-empty segments among organizer name, street address, and the
single-space join of postal code and city; in particular an empty
postal-code-and-city pair contributes no segment, so no lone separator or
stray space appears. -/
theorem claim_C7_location_join (a : DetailArticle) :
    (scrapeArticle a).Location =
      (strBytes ", ").intercalate
        (([trimSpace a.organisationText, trimSpace a.streetAddressText,
           trimSpace (trimSpace a.postalCodeText ++ [32] ++
             trimSpace a.localityText)]).filter
          (fun seg => seg.length != 0)) := by
  have hloc : (scrapeArticle a).Location =
      (strBytes ", ").intercalate
        ((if (trimSpace a.organisationText).length ≠ 0 then
            [trimSpace a.organisationText] else []) ++
         (if (trimSpace a.streetAddressText).length ≠ 0 then
            [trimSpace a.streetAddressText] else []) ++
         (if (trimSpace a.postalCodeText).length ≠ 0 ∨
             (trimSpace a.localityText).length ≠ 0 then
            [trimSpace (trimSpace a.postalCodeText ++ [32] ++
              trimSpace a.localityText)] else [])) := by
    simp [scrapeArticle]
  have hseg := location_segment_nil_iff a.postalCodeText a.localityText
  rw [hloc]
  set g := trimSpace (trimSpace a.postalCodeText ++ [32] ++ trimSpace a.localityText)
  by_cases hp : trimSpace a.postalCodeText = [] <;>
    by_cases hc : trimSpace a.localityText = []
  · have hg : g = [] := hseg.mpr ⟨hp, hc⟩
    by_cases h1 : trimSpace a.organisationText = [] <;>
      by_cases h2 : trimSpace a.streetAddressText = [] <;>
        simp [List.filter_cons, h1, h2, hp, hc, hg, bne_iff_ne,
          List.length_eq_zero]
  · have hg : g ≠ [] := fun h => hc (hseg.mp h).2
    by_cases h1 : trimSpace a.organisationText = [] <;>
      by_cases h2 : trimSpace a.streetAddressText = [] <;>
        simp [List.filter_cons, h1, h2, hp, hc, hg, bne_iff_ne,
          List.length_eq_zero]
  · have hg : g ≠ [] := fun h => hp (hseg.mp h).1
    by_cases h1 : trimSpace a.organisationText = [] <;>
      by_cases h2 : trimSpace a.streetAddressText = [] <;>
        simp [List.filter_cons, h1, h2, hp, hc, hg, bne_iff_ne,
          List.length_eq_zero]
  · have hg : g ≠ [] := fun h => hp (hseg.mp h).1
    by_cases h1 : trimSpace a.organisationText = [] <;>
      by_cases h2 : trimSpace a.streetAddressText = [] <;>
        simp [List.filter_cons, h1, h2, hp, hc, hg, bne_iff_ne,
          List.length_eq_zero]

/-- Claim C8: `ScrapeEvent` returns an error exactly when the transport
fails, the status is not 200, the document fails to parse, or the
`article#SP-content` container is absent; each case maps to its own error,
and the missing-container case is an explicit failure surfaced to the
caller. -/
theorem claim_C8_scrape_event_errors (r : DetailFetch) :
    ((∃ e, ScrapeEvent r = .error e) ↔
      ¬∃ a, r = .response 200 (some (some a))) ∧
    ScrapeEvent .transportError = .error .fetchError ∧
    (∀ st doc, st ≠ 200 → ScrapeEvent (.response st doc) = .error (.statusError st)) ∧
    ScrapeEvent (.response 200 none) = .error .parseError ∧
    ScrapeEvent (.response 200 (some none)) = .error .contentNotFound ∧
    (∀ a, ScrapeEvent (.response 200 (some (some a))) = .ok (scrapeArticle a)) := by
  refine ⟨?_, rfl, ?_, rfl, rfl, fun a => rfl⟩
  · cases r with
    | transportError =>
      simp only [ScrapeEvent]
      constructor
      · rintro - ⟨a, ha⟩; exact DetailFetch.noConfusion ha
      · intro _; exact ⟨.fetchError, rfl⟩
    | response st doc =>
      by_cases hst : st = 200
      · subst hst
        rcases doc with _ | (_ | a)
        · simp [ScrapeEvent]
        · simp [ScrapeEvent]
        · simp [ScrapeEvent]
      · simp [ScrapeEvent, hst]
  · intro st doc hst
    simp [ScrapeEvent, hst]

/-- Witness for claim C8: a 404 response fails with the status error. -/
theorem claim_C8_witness :
    ScrapeEvent (.response 404 (some none)) = .error (.statusError 404) :=
  (claim_C8_scrape_event_errors (.response 404 (some none))).2.2.1
    404 (some none) (by decide)

/-- Claim C9: every Event that `ScrapeEvent` returns successfully has
`Start = End`; when the startDate `datetime` attribute is absent or does
not parse as `YYYY-MM-DD`, the call still succeeds and both stay the zero
time value. -/
theorem claim_C9_start_eq_end (a : DetailArticle) :
    (scrapeArticle a).Start = (scrapeArticle a).End ∧
    (a.startDateAttr.bind parseYYYYMMDD = none →
      (scrapeArticle a).Start = GoTime.zero ∧
      (scrapeArticle a).End = GoTime.zero) ∧
    ScrapeEvent (.response 200 (some (some a))) = .ok (scrapeArticle a) := by
  refine ⟨?_, ?_, rfl⟩
  · rcases hs : a.startDateAttr with _ | d
    · simp [scrapeArticle, hs]
    · rcases hp : parseYYYYMMDD d with _ | t <;> simp [scrapeArticle, hs, hp]
  · intro h
    rcases hs : a.startDateAttr with _ | d
    · simp [scrapeArticle, hs]
    · rw [hs] at h
      have h' : parseYYYYMMDD d = none := h
      simp [scrapeArticle, hs, h']

/-- Witness for claim C9: a detail page with a malformed date attribute
still yields a successful Event with zero start and end. -/
theorem claim_C9_witness :
    (scrapeArticle ⟨[], some (strBytes "16.03.2025"), [], [], [], [], [], []⟩).Start =
      GoTime.zero ∧
    (scrapeArticle ⟨[], some (strBytes "16.03.2025"), [], [], [], [], [], []⟩).End =
      GoTime.zero :=
  (claim_C9_start_eq_end ⟨[], some (strBytes "16.03.2025"), [], [], [], [], [], []⟩).2.1
    (by decide)

/-! ## Helper lemmas: Organizer = Location for every produced preview -/

lemma extractPreview_org_loc (nd : TeaserNode) :
    (extractPreview nd).Organizer = (extractPreview nd).Location := rfl

lemma extractPreviewPar_org_loc (nd : TeaserNode) (pv : EventPreview)
    (h : extractPreviewPar nd = .ok pv) :
    pv.Organizer = pv.Location := by
  rcases hsa : nd.startDateAttr with _ | a
  · rcases he : nd.endDateAttr with _ | b
    · simp [extractPreviewPar, hsa, he] at h
      subst h; rfl
    · rcases hp : parseISO8601 b with _ | t
      · simp [extractPreviewPar, hsa, he, hp] at h
        subst h; rfl
      · simp [extractPreviewPar, hsa, he, hp] at h
  · rcases hp : parseISO8601 a with _ | t
    · rcases he : nd.endDateAttr with _ | b
      · simp [extractPreviewPar, hsa, he, hp] at h
        subst h; rfl
      · rcases hq : parseISO8601 b with _ | t
        · simp [extractPreviewPar, hsa, he, hp, hq] at h
          subst h; rfl
        · simp [extractPreviewPar, hsa, he, hp, hq] at h
    · simp [extractPreviewPar, hsa, hp] at h

lemma mapM_extractPreviewPar_org_loc (nodes : List TeaserNode) :
    ∀ pvs, nodes.mapM extractPreviewPar = .ok pvs →
      ∀ pv ∈ pvs, pv.Organizer = pv.Location := by
  induction nodes with
  | nil =>
    intro pvs h pv hpv
    have h' : (Except.ok [] : Except Fatal (List EventPreview)) = .ok pvs := h
    obtain rfl : ([] : List EventPreview) = pvs := by injection h'
    exact absurd hpv (List.not_mem_nil pv)
  | cons a l ih =>
    intro pvs h pv hpv
    rw [List.mapM_cons] at h
    cases ha : extractPreviewPar a with
    | error f => rw [ha] at h; exact absurd h (by simp [Bind.bind, Except.bind])
    | ok pv₀ =>
      rw [ha] at h
      cases hl : l.mapM extractPreviewPar with
      | error f => rw [hl] at h; exact absurd h (by simp [Bind.bind, Except.bind])
      | ok pvl =>
        rw [hl] at h
        have h' : (Except.ok (pv₀ :: pvl) : Except Fatal (List EventPreview)) =
            .ok pvs := h
        obtain rfl : pv₀ :: pvl = pvs := by injection h'
        rcases List.mem_cons.mp hpv with rfl | hmem
        · exact extractPreviewPar_org_loc a pv ha
        · exact ih pvl hl pv hmem

lemma previewPageTask_org_loc (fetch : Nat → Option (List TeaserNode))
    (q : Nat) (pvs : List EventPreview)
    (h : previewPageTask fetch q = .ok (some pvs)) :
    ∀ pv ∈ pvs, pv.Organizer = pv.Location := by
  intro pv hpv
  rw [previewPageTask] at h
  cases hf : fetch q with
  | none => rw [hf] at h; exact absurd h (by simp)
  | some nodes =>
    rw [hf] at h
    have h' : (do
        let pvl ← nodes.mapM extractPreviewPar
        pure (if pvl.length > 0 then some pvl else none) :
          Except Fatal (Option (List EventPreview))) = .ok (some pvs) := h
    cases hm : nodes.mapM extractPreviewPar with
    | error f => rw [hm] at h'; exact absurd h' (by simp [Bind.bind, Except.bind])
    | ok pvl =>
      rw [hm] at h'
      by_cases hlen : pvl.length > 0
      · have h'' : (Except.ok (if pvl.length > 0 then some pvl else none) :
            Except Fatal (Option (List EventPreview))) = .ok (some pvs) := h'
        rw [if_pos hlen] at h''
        have : some pvl = some pvs := by injection h''
        obtain rfl : pvl = pvs := by injection this
        exact mapM_extractPreviewPar_org_loc nodes pvl hm pv hpv
      · have h'' : (Except.ok (if pvl.length > 0 then some pvl else none) :
            Except Fatal (Option (List EventPreview))) = .ok (some pvs) := h'
        rw [if_neg hlen] at h''
        have : (none : Option (List EventPreview)) = some pvs := by injection h''
        exact absurd this (by simp)

lemma previewRoundTasks_org_loc (fetch : Nat → Option (List TeaserNode))
    (p : Nat) :
    ∀ (ord : List Nat) (contribs : List (List EventPreview)),
      previewRoundTasks fetch p ord = .ok contribs →
      ∀ c ∈ contribs, ∀ pv ∈ c, pv.Organizer = pv.Location := by
  intro ord
  induction ord with
  | nil =>
    intro contribs h c hc
    have h' : (Except.ok [] : Except Fatal (List (List EventPreview))) =
        .ok contribs := h
    obtain rfl : ([] : List (List EventPreview)) = contribs := by injection h'
    exact absurd hc (List.not_mem_nil c)
  | cons j rest ih =>
    intro contribs h c hc
    rw [previewRoundTasks] at h
    cases ht : previewPageTask fetch (p + j) with
    | error f => rw [ht] at h; exact absurd h (by simp)
    | ok o =>
      rw [ht] at h
      cases o with
      | none => exact ih contribs h c hc
      | some pvs =>
        cases hr : previewRoundTasks fetch p rest with
        | error f => rw [hr] at h; exact absurd h (by simp)
        | ok cs =>
          rw [hr] at h
          have h' : (Except.ok (pvs :: cs) :
              Except Fatal (List (List EventPreview))) = .ok contribs := h
          obtain rfl : pvs :: cs = contribs := by injection h'
          rcases List.mem_cons.mp hc with rfl | hmem
          · exact previewPageTask_org_loc fetch (p + j) c ht
          · exact ih cs hr c hmem

lemma previewParallelRound_org_loc (fetch : Nat → Option (List TeaserNode))
    (ord : List Nat) (s s' : PrevParState)
    (h : previewParallelRound fetch ord s = .ok s')
    (hinv : ∀ pv ∈ s.allPreviews, pv.Organizer = pv.Location) :
    ∀ pv ∈ s'.allPreviews, pv.Organizer = pv.Location := by
  intro pv hpv
  rw [previewParallelRound] at h
  cases ht : previewRoundTasks fetch s.currentPage ord with
  | error f => rw [ht] at h; exact absurd h (by simp)
  | ok contribs =>
    rw [ht] at h
    have h' : s'.allPreviews = s.allPreviews ++ contribs.flatten := by
      injection h with h''
      rw [← h'']
    rw [h'] at hpv
    rcases List.mem_append.mp hpv with hpv | hpv
    · exact hinv pv hpv
    · obtain ⟨c, hc, hpvc⟩ := List.mem_flatten.mp hpv
      exact previewRoundTasks_org_loc fetch s.currentPage ord contribs ht c hc pv hpvc

lemma previewParallelLoop_org_loc (fetch : Nat → Option (List TeaserNode))
    (sched : Nat → List Nat) :
    ∀ (fuel : Nat) (s : PrevParState) (pvs : List EventPreview),
      previewParallelLoop fetch sched fuel s = some (.ok pvs) →
      (∀ pv ∈ s.allPreviews, pv.Organizer = pv.Location) →
      ∀ pv ∈ pvs, pv.Organizer = pv.Location := by
  intro fuel
  induction fuel with
  | zero =>
    intro s pvs h hinv
    rw [previewParallelLoop] at h
    cases hm : s.hasMore with
    | true => rw [hm] at h; exact absurd h (by simp)
    | false =>
      rw [hm] at h
      simp only [Bool.false_eq_true, if_false, Option.some.injEq] at h
      have : s.allPreviews = pvs := by injection h
      rw [← this]
      exact hinv
  | succ fuel ih =>
    intro s pvs h hinv
    rw [previewParallelLoop] at h
    cases hm : s.hasMore with
    | false =>
      rw [hm] at h
      simp only [Bool.false_eq_true, if_false, Option.some.injEq] at h
      have : s.allPreviews = pvs := by injection h
      rw [← this]
      exact hinv
    | true =>
      rw [hm] at h
      simp only [if_true] at h
      cases hr : previewParallelRound fetch (sched s.currentPage) s with
      | error f => rw [hr] at h; exact absurd h (by simp)
      | ok s' =>
        rw [hr] at h
        exact ih s' pvs h
          (previewParallelRound_org_loc fetch (sched s.currentPage) s s' hr hinv)

lemma previewNext_org_loc (fetch : Nat → Option (List TeaserNode))
    (e : EventPreviewIterator)
    (hinv : ∀ pv ∈ e.previews, pv.Organizer = pv.Location)
    (pv : EventPreview) (e' : EventPreviewIterator)
    (h : EventPreviewIterator.Next fetch e = (some pv, e')) :
    pv.Organizer = pv.Location ∧
    ∀ q ∈ e'.previews, q.Organizer = q.Location := by
  obtain ⟨cp, pvs, hm⟩ := e
  cases pvs with
  | cons q rest =>
    rw [previewNext_buffer] at h
    have h1 : q = pv := by
      have := congrArg Prod.fst h
      simpa using this
    have h2 : (⟨cp, rest, hm⟩ : EventPreviewIterator) = e' := congrArg Prod.snd h
    subst h1
    constructor
    · exact hinv q (List.mem_cons_self _ _)
    · intro q' hq'
      rw [← h2] at hq'
      exact hinv q' (List.mem_cons_of_mem _ hq')
  | nil =>
    cases hm with
    | false =>
      rw [previewNext_done] at h
      exact absurd (congrArg Prod.fst h) (by simp)
    | true =>
      cases hf : fetch cp with
      | none =>
        rw [previewNext_fetch_empty fetch cp (Or.inr hf)] at h
        exact absurd (congrArg Prod.fst h) (by simp)
      | some nodes =>
        cases nodes with
        | nil =>
          rw [previewNext_fetch_empty fetch cp (Or.inl hf)] at h
          exact absurd (congrArg Prod.fst h) (by simp)
        | cons nd nds =>
          rw [previewNext_fetch_cons fetch cp nd nds hf] at h
          have h1 : extractPreview nd = pv := by
            have := congrArg Prod.fst h
            simpa using this
          subst h1
          have h2 : (⟨cp + 1, nds.map extractPreview, true⟩ :
              EventPreviewIterator) = e' := congrArg Prod.snd h
          constructor
          · exact extractPreview_org_loc nd
          · intro q' hq'
            rw [← h2] at hq'
            obtain ⟨nd', _, rfl⟩ := List.mem_map.mp hq'
            exact extractPreview_org_loc nd'

lemma collectPreviewsLoop_org_loc (fetch : Nat → Option (List TeaserNode)) :
    ∀ (fuel : Nat) (e : EventPreviewIterator) (acc res : List EventPreview),
      (∀ pv ∈ e.previews, pv.Organizer = pv.Location) →
      (∀ pv ∈ acc, pv.Organizer = pv.Location) →
      collectPreviewsLoop fetch fuel e acc = some res →
      ∀ pv ∈ res, pv.Organizer = pv.Location := by
  intro fuel
  induction fuel with
  | zero => intro e acc res _ _ h; simp [collectPreviewsLoop] at h
  | succ fuel ih =>
    intro e acc res hinv hacc h
    rw [collectPreviewsLoop] at h
    rcases hN : EventPreviewIterator.Next fetch e with ⟨op, e'⟩
    rw [hN] at h
    cases op with
    | some pv =>
      obtain ⟨hp, hinv'⟩ := previewNext_org_loc fetch e hinv pv e' hN
      refine ih e' (acc ++ [pv]) res hinv' ?_ h
      intro q hq
      rcases List.mem_append.mp hq with hq | hq
      · exact hacc q hq
      · rw [List.mem_singleton.mp hq]; exact hp
    | none =>
      have h' : some acc = some res := h
      obtain rfl : acc = res := by injection h'
      exact hacc

/-- Claim C10: every EventPreview produced by the preview extraction —
whether through the sequential iterator/collector or the parallel
collector — has its Organizer equal to its Location, since both fields
are assigned the same trimmed location-block text. -/
theorem claim_C10_organizer_eq_location
    (fetchS fetchP : Nat → Option (List TeaserNode)) (sched : Nat → List Nat)
    (fuelS fuelP : Nat) (seqRes parRes : List EventPreview) (nd : TeaserNode) :
    (extractPreview nd).Organizer = (extractPreview nd).Location ∧
    (∀ pv, extractPreviewPar nd = .ok pv → pv.Organizer = pv.Location) ∧
    (GetAllEventPreviews fetchS fuelS = some seqRes →
      ∀ pv ∈ seqRes, pv.Organizer = pv.Location) ∧
    (GetAllEventPreviewsParallel fetchP sched fuelP = some (.ok parRes) →
      ∀ pv ∈ parRes, pv.Organizer = pv.Location) := by
  refine ⟨extractPreview_org_loc nd, ?_, ?_, ?_⟩
  · intro pv h
    exact extractPreviewPar_org_loc nd pv h
  · intro h
    exact collectPreviewsLoop_org_loc fetchS fuelS NewEventPreviewIterator [] seqRes
      (by intro pv hpv; exact absurd hpv (List.not_mem_nil pv))
      (by intro pv hpv; exact absurd hpv (List.not_mem_nil pv)) h
  · intro h
    exact previewParallelLoop_org_loc fetchP sched fuelP ⟨[], 1, true⟩ parRes h
      (by intro pv hpv; exact absurd hpv (List.not_mem_nil pv))

/-- Witness for claim C10: a concrete node run through the parallel
extraction. -/
theorem claim_C10_witness :
    (EventPreview.mk [] (strBytes "T") (strBytes "Loc") (strBytes "Loc")
      GoTime.zero GoTime.zero).Organizer =
    (EventPreview.mk [] (strBytes "T") (strBytes "Loc") (strBytes "Loc")
      GoTime.zero GoTime.zero).Location :=
  (claim_C10_organizer_eq_location (fun _ => some []) (fun _ => some [])
    (fun _ => List.range batchSize) 1 1 [] []
    ⟨none, strBytes "T", strBytes "Loc", none, none⟩).2.1
    ⟨[], strBytes "T", strBytes "Loc", strBytes "Loc", GoTime.zero, GoTime.zero⟩
    rfl

end MainzEvents
